import Mathlib

/-!
Verification of the blackjack assistant core logic (strategy tables, hand
evaluation, outcome resolution, Hi-Lo card counting) against its
natural-language specification.  The definitions below are a shallow
embedding of the Python source: card ranks become an inductive type,
the strategy dictionaries become functions on the same key space, the
hand-value while loop becomes structural recursion on the ace count, and
the float arithmetic of the counting engine is modelled over the
rationals with explicit round-half-even rounding to two decimals.
-/

namespace Blackjack

/-- Card ranks, one constructor per entry of CARD_LABELS in the source. -/
inductive Card where
  | two | three | four | five | six | seven | eight | nine | ten
  | J | Q | K | A
deriving DecidableEq, Repr, Fintype

/-- PlayAction enum of the source. -/
inductive PlayAction where
  | HIT | STAND | DOUBLE | SPLIT | SURRENDER
deriving DecidableEq, Repr

/-- The Spanish display string of each action (the .value of the Python enum). -/
def PlayAction.value : PlayAction → String
  | .HIT => "Pedir"
  | .STAND => "Plantarse"
  | .DOUBLE => "Doblar"
  | .SPLIT => "Dividir"
  | .SURRENDER => "Rendirse"

/-- GameResult enum of the source. -/
inductive GameResult where
  | WIN | LOSE | PUSH | PENDING
deriving DecidableEq, Repr

/-- BlackjackStrategy.get_card_value: J/Q/K are 10, A is 11, others face value. -/
def get_card_value : Card → ℕ
  | .J => 10
  | .Q => 10
  | .K => 10
  | .A => 11
  | .two => 2
  | .three => 3
  | .four => 4
  | .five => 5
  | .six => 6
  | .seven => 7
  | .eight => 8
  | .nine => 9
  | .ten => 10

/-- Number of aces in the hand (the aces counter of calculate_hand_value). -/
def acesCount : List Card → ℕ
  | [] => 0
  | c :: cs => (if c = Card.A then 1 else 0) + acesCount cs

/-- The while loop of calculate_hand_value: while total > 21 and aces > 0,
subtract 10 from the total and drop one ace. -/
def reduceAces : ℕ → ℕ → ℕ × ℕ
  | total, 0 => (total, 0)
  | total, aces + 1 =>
    if 21 < total then reduceAces (total - 10) aces else (total, aces + 1)

/-- BlackjackStrategy.calculate_hand_value: sum all cards with aces as 11,
then reduce aces while busted; is_soft iff an ace is still worth 11 and the
total does not bust. -/
def calculate_hand_value (cards : List Card) : ℕ × Bool :=
  let p := reduceAces ((cards.map get_card_value).sum) (acesCount cards)
  (p.1, decide (0 < p.2 ∧ p.1 ≤ 21))

/-- BlackjackStrategy.HARD_STRATEGY as a function on the dict key space:
keys are pairs (total, dealer value) with total 5..21 and dealer value 2..11. -/
def HARD_STRATEGY (i j : ℕ) : Option PlayAction :=
  if 2 ≤ j ∧ j ≤ 11 then
    if 5 ≤ i ∧ i ≤ 11 then some PlayAction.HIT
    else if i = 12 then
      (if 4 ≤ j ∧ j ≤ 6 then some PlayAction.STAND else some PlayAction.HIT)
    else if 13 ≤ i ∧ i ≤ 16 then
      (if 2 ≤ j ∧ j ≤ 6 then some PlayAction.STAND else some PlayAction.HIT)
    else if 17 ≤ i ∧ i ≤ 21 then some PlayAction.STAND
    else none
  else none

/-- BlackjackStrategy.SOFT_STRATEGY as a function on the dict key space:
keys are pairs (total, dealer value) with total 13..21 and dealer value 2..11. -/
def SOFT_STRATEGY (i j : ℕ) : Option PlayAction :=
  if 2 ≤ j ∧ j ≤ 11 then
    if 13 ≤ i ∧ i ≤ 17 then
      (if 7 ≤ j then some PlayAction.HIT else some PlayAction.DOUBLE)
    else if i = 18 then
      (if j = 2 ∨ j = 7 ∨ j = 8 then some PlayAction.STAND
       else if 3 ≤ j ∧ j ≤ 6 then some PlayAction.DOUBLE
       else some PlayAction.HIT)
    else if 19 ≤ i ∧ i ≤ 21 then some PlayAction.STAND
    else none
  else none

/-- Dealer up-card value as computed on line 139 of the source:
get_card_value, with the redundant special case sending the ace to 11. -/
def dealer_value (c : Card) : ℕ :=
  if c = Card.A then 11 else get_card_value c

/-- The double-to-hit degradation of get_optimal_play: a DOUBLE entry becomes
HIT when doubling is not allowed. -/
def adjustDouble (a : PlayAction) (can_double : Bool) : PlayAction :=
  if a = PlayAction.DOUBLE ∧ can_double = false then PlayAction.HIT else a

/-- The count-based deviations of get_optimal_play: when true_count is at
least 2, hard 16 vs dealer 10 and hard 15 vs dealer 10 become STAND. -/
def applyDeviations (a : PlayAction) (player_total dealer_val : ℕ)
    (true_count : ℚ) : PlayAction :=
  if 2 ≤ true_count then
    if player_total = 16 ∧ dealer_val = 10 then PlayAction.STAND
    else if player_total = 15 ∧ dealer_val = 10 then PlayAction.STAND
    else a
  else a

/-- BlackjackStrategy.get_optimal_play.  An empty hand returns the need-cards
sentinel; otherwise the hard table is consulted (the soft table never is),
the double degradation and the count deviations are applied, and a missing
key falls back to STAND on 17+ and HIT below. -/
def get_optimal_play (player_cards : List Card) (dealer_card : Card)
    (true_count : ℚ) (can_double : Bool) (can_split : Bool) :
    PlayAction × String :=
  if player_cards = [] then (PlayAction.HIT, "Necesitas cartas para jugar")
  else
    match HARD_STRATEGY (calculate_hand_value player_cards).1
        (dealer_value dealer_card) with
    | some a =>
      (applyDeviations (adjustDouble a can_double)
          (calculate_hand_value player_cards).1 (dealer_value dealer_card)
          true_count,
       "Mano hard " ++ toString (calculate_hand_value player_cards).1 ++
         ": " ++ (applyDeviations (adjustDouble a can_double)
           (calculate_hand_value player_cards).1 (dealer_value dealer_card)
           true_count).value)
    | none =>
      if 17 ≤ (calculate_hand_value player_cards).1 then
        (PlayAction.STAND, "Mano alta, plantarse")
      else (PlayAction.HIT, "Pedir carta")

/-- BlackjackStrategy.determine_winner, with the natural-blackjack tests of
lines 112-120 spelled out. -/
def determine_winner (player_cards dealer_cards : List Card) : GameResult :=
  if player_cards = [] ∨ dealer_cards = [] then GameResult.PENDING
  else if 21 < (calculate_hand_value player_cards).1 then GameResult.LOSE
  else if 21 < (calculate_hand_value dealer_cards).1 then GameResult.WIN
  else if (player_cards.length = 2 ∧ (calculate_hand_value player_cards).1 = 21) ∧
      (dealer_cards.length = 2 ∧ (calculate_hand_value dealer_cards).1 = 21) then
    GameResult.PUSH
  else if (player_cards.length = 2 ∧ (calculate_hand_value player_cards).1 = 21) ∧
      ¬(dealer_cards.length = 2 ∧ (calculate_hand_value dealer_cards).1 = 21) then
    GameResult.WIN
  else if (dealer_cards.length = 2 ∧ (calculate_hand_value dealer_cards).1 = 21) ∧
      ¬(player_cards.length = 2 ∧ (calculate_hand_value player_cards).1 = 21) then
    GameResult.LOSE
  else if (calculate_hand_value dealer_cards).1 < (calculate_hand_value player_cards).1 then
    GameResult.WIN
  else if (calculate_hand_value player_cards).1 < (calculate_hand_value dealer_cards).1 then
    GameResult.LOSE
  else GameResult.PUSH

/-- CardCountingEngine.HI_LO_VALUES. -/
def HI_LO_VALUES : Card → ℤ
  | .two => 1
  | .three => 1
  | .four => 1
  | .five => 1
  | .six => 1
  | .seven => 0
  | .eight => 0
  | .nine => 0
  | .ten => -1
  | .J => -1
  | .Q => -1
  | .K => -1
  | .A => -1

/-- Executable floor of a rational number. -/
def floorQ (q : ℚ) : ℤ := q.num / q.den

/-- floorQ agrees with the mathematical floor. -/
theorem floorQ_eq (q : ℚ) : floorQ q = ⌊q⌋ := Rat.floor_def.symm

/-- Round-half-even to an integer, the rounding used by the Python built-in
round on the values arising here. -/
def roundHalfEven (q : ℚ) : ℤ :=
  if q - floorQ q < 1 / 2 then floorQ q
  else if 1 / 2 < q - floorQ q then floorQ q + 1
  else if floorQ q % 2 = 0 then floorQ q else floorQ q + 1

/-- Python round(x, 2): round half to even at the second decimal place. -/
def round2 (q : ℚ) : ℚ := (roundHalfEven (q * 100) : ℚ) / 100

/-- CardCountingEngine.calculate_counts, over exact rationals. -/
def calculate_counts (all_cards : List Card) (num_decks : ℕ) : ℤ × ℚ × ℚ :=
  let running_count : ℤ := (all_cards.map HI_LO_VALUES).sum
  let decks_remaining : ℚ :=
    max (1 / 2) ((num_decks : ℚ) - (all_cards.length : ℚ) / 52)
  let true_count : ℚ := (running_count : ℚ) / decks_remaining
  (running_count, round2 true_count, round2 decks_remaining)

/-- If q lies in [z, z + 1/2), round-half-even returns z. -/
theorem roundHalfEven_eq_of_lt_half (q : ℚ) (z : ℤ)
    (h1 : (z : ℚ) ≤ q) (h2 : q < (z : ℚ) + 1 / 2) : roundHalfEven q = z := by
  have hfl : ⌊q⌋ = z := Int.floor_eq_iff.mpr ⟨h1, by linarith⟩
  unfold roundHalfEven
  rw [floorQ_eq, hfl, if_pos (by push_cast; linarith)]

/-- Round-half-even never goes below the floor. -/
theorem floor_le_roundHalfEven (q : ℚ) : ⌊q⌋ ≤ roundHalfEven q := by
  unfold roundHalfEven
  rw [floorQ_eq]
  split_ifs <;> omega

/-- If q lies in [z/100, z/100 + 1/200), round2 returns z/100. -/
theorem round2_eq_of (q : ℚ) (z : ℤ) (h1 : (z : ℚ) ≤ q * 100)
    (h2 : q * 100 < (z : ℚ) + 1 / 2) : round2 q = (z : ℚ) / 100 := by
  unfold round2
  rw [roundHalfEven_eq_of_lt_half (q * 100) z h1 h2]

/-- round2 of a natural number is itself. -/
theorem round2_natCast (n : ℕ) : round2 (n : ℚ) = (n : ℚ) := by
  have h := round2_eq_of (n : ℚ) (100 * n) (by norm_cast; omega)
    (by push_cast; linarith)
  rw [h]
  push_cast
  ring

/-- round2 1/2 is 1/2. -/
theorem round2_half : round2 (1 / 2) = 1 / 2 := by
  have h := round2_eq_of (1 / 2) 50 (by norm_num) (by norm_num)
  rw [h]
  norm_num

/-- round2 preserves the 1/2 lower bound. -/
theorem half_le_round2 (q : ℚ) (h : 1 / 2 ≤ q) : 1 / 2 ≤ round2 q := by
  have h50 : (50 : ℤ) ≤ ⌊q * 100⌋ := Int.le_floor.mpr (by push_cast; linarith)
  have h2 := floor_le_roundHalfEven (q * 100)
  have h3 : (50 : ℚ) ≤ (roundHalfEven (q * 100) : ℚ) := by
    exact_mod_cast le_trans h50 h2
  unfold round2
  rw [le_div_iff₀ (by norm_num : (0 : ℚ) < 100)]
  linarith


/-- The dealer up-card value is always between 2 and 11. -/
theorem dealer_value_bounds (d : Card) :
    2 ≤ dealer_value d ∧ dealer_value d ≤ 11 := by
  cases d <;> decide

/-- The empty hand evaluates to total 0, not soft. -/
theorem chv_nil : calculate_hand_value [] = (0, false) := rfl

/-- A hand with positive total is nonempty. -/
theorem ne_nil_of_total_pos (cards : List Card)
    (h : 1 ≤ (calculate_hand_value cards).1) : cards ≠ [] := by
  rintro rfl
  rw [chv_nil] at h
  omega

/-- Every value stored in the hard table is HIT or STAND. -/
theorem HARD_STRATEGY_mem (i j : ℕ) (a : PlayAction)
    (h : HARD_STRATEGY i j = some a) :
    a = PlayAction.HIT ∨ a = PlayAction.STAND := by
  unfold HARD_STRATEGY at h
  split_ifs at h <;> simp_all

/-- Hard totals 5 to 11 are HIT in the hard table. -/
theorem HARD_band_5_11 (i j : ℕ) (hi : 5 ≤ i ∧ i ≤ 11)
    (hj : 2 ≤ j ∧ j ≤ 11) : HARD_STRATEGY i j = some PlayAction.HIT := by
  unfold HARD_STRATEGY
  rw [if_pos hj, if_pos hi]

/-- Hard total 12 stands against dealer 4 to 6, else hits, in the hard table. -/
theorem HARD_band_12 (j : ℕ) (hj : 2 ≤ j ∧ j ≤ 11) :
    HARD_STRATEGY 12 j =
      (if 4 ≤ j ∧ j ≤ 6 then some PlayAction.STAND else some PlayAction.HIT) := by
  unfold HARD_STRATEGY
  rw [if_pos hj, if_neg (by omega : ¬(5 ≤ 12 ∧ 12 ≤ 11)), if_pos rfl]

/-- Hard totals 13 to 16 stand against dealer 2 to 6, else hit, in the hard
table. -/
theorem HARD_band_13_16 (i j : ℕ) (hi : 13 ≤ i ∧ i ≤ 16)
    (hj : 2 ≤ j ∧ j ≤ 11) :
    HARD_STRATEGY i j =
      (if 2 ≤ j ∧ j ≤ 6 then some PlayAction.STAND else some PlayAction.HIT) := by
  unfold HARD_STRATEGY
  rw [if_pos hj, if_neg (by omega : ¬(5 ≤ i ∧ i ≤ 11)),
    if_neg (by omega : ¬i = 12), if_pos hi]

/-- Hard totals 17 to 21 are STAND in the hard table. -/
theorem HARD_band_17_21 (i j : ℕ) (hi : 17 ≤ i ∧ i ≤ 21)
    (hj : 2 ≤ j ∧ j ≤ 11) : HARD_STRATEGY i j = some PlayAction.STAND := by
  unfold HARD_STRATEGY
  rw [if_pos hj, if_neg (by omega : ¬(5 ≤ i ∧ i ≤ 11)),
    if_neg (by omega : ¬i = 12), if_neg (by omega : ¬(13 ≤ i ∧ i ≤ 16)),
    if_pos hi]

/-- Degrading HIT never changes it. -/
theorem adjustDouble_hit (cd : Bool) :
    adjustDouble PlayAction.HIT cd = PlayAction.HIT := by
  unfold adjustDouble
  simp

/-- Degrading STAND never changes it. -/
theorem adjustDouble_stand (cd : Bool) :
    adjustDouble PlayAction.STAND cd = PlayAction.STAND := by
  unfold adjustDouble
  simp

/-- Below true count 2 the deviation overlay is the identity. -/
theorem applyDeviations_of_lt (a : PlayAction) (t dv : ℕ) (tc : ℚ)
    (h : tc < 2) : applyDeviations a t dv tc = a := by
  unfold applyDeviations
  rw [if_neg (not_le.mpr h)]

/-- On a nonempty hand whose key is in the hard table, the recommended action
is the table entry after double degradation and count deviations. -/
theorem gop_of_hard (cards : List Card) (d : Card) (tc : ℚ) (cd cs : Bool)
    (a : PlayAction) (hne : cards ≠ [])
    (h : HARD_STRATEGY (calculate_hand_value cards).1 (dealer_value d) = some a) :
    (get_optimal_play cards d tc cd cs).1 =
      applyDeviations (adjustDouble a cd) (calculate_hand_value cards).1
        (dealer_value d) tc := by
  simp [get_optimal_play, hne, h]

/-- On a nonempty hand whose key is missing from the hard table, the fallback
stands on 17 and hits below. -/
theorem gop_of_none (cards : List Card) (d : Card) (tc : ℚ) (cd cs : Bool)
    (hne : cards ≠ [])
    (h : HARD_STRATEGY (calculate_hand_value cards).1 (dealer_value d) = none) :
    (get_optimal_play cards d tc cd cs).1 =
      (if 17 ≤ (calculate_hand_value cards).1 then PlayAction.STAND
       else PlayAction.HIT) := by
  simp [get_optimal_play, hne, h]
  split_ifs <;> rfl

/-- C10: on the empty player hand, get_optimal_play does not fail: for every
dealer up-card, true count and flag combination it returns the need-cards
sentinel rationale together with the defined action HIT. -/
theorem C10_empty_hand_sentinel (d : Card) (tc : ℚ) (cd cs : Bool) :
    get_optimal_play [] d tc cd cs =
      (PlayAction.HIT, "Necesitas cartas para jugar") := rfl

/-- C9: for every input, the action recommended by get_optimal_play is HIT or
STAND; DOUBLE, SPLIT and SURRENDER are never returned, because only the hard
table, whose entries are all HIT or STAND, is ever consulted. -/
theorem C9_only_hit_or_stand (cards : List Card) (d : Card) (tc : ℚ)
    (cd cs : Bool) :
    (get_optimal_play cards d tc cd cs).1 = PlayAction.HIT ∨
    (get_optimal_play cards d tc cd cs).1 = PlayAction.STAND := by
  by_cases hne : cards = []
  · subst hne
    left
    rfl
  · cases h : HARD_STRATEGY (calculate_hand_value cards).1 (dealer_value d) with
    | none =>
      rw [gop_of_none cards d tc cd cs hne h]
      split_ifs
      · right; rfl
      · left; rfl
    | some a =>
      rw [gop_of_hard cards d tc cd cs a hne h]
      have ha := HARD_STRATEGY_mem _ _ _ h
      unfold applyDeviations adjustDouble
      split_ifs <;> tauto

/-- C1: the claim that soft 13 to 17 doubles against dealer 2 to 6 is the
intent recorded in the SOFT_STRATEGY table, but get_optimal_play never
consults that table: on the scenario hand A,6 versus dealer 5 with doubling
allowed, the hand is soft 17, the soft table entry is DOUBLE, and the code
nevertheless returns the hard-table action STAND. -/
theorem C1_soft_table_dead_code :
    calculate_hand_value [Card.A, Card.six] = (17, true) ∧
    SOFT_STRATEGY 17 5 = some PlayAction.DOUBLE ∧
    dealer_value Card.five = 5 ∧
    (get_optimal_play [Card.A, Card.six] Card.five 0 true true).1 =
      PlayAction.STAND := by
  decide

/-- C3: with a hard total of 16 (or 15) against a dealer up-card of value 10,
the base hard-table entry is HIT, and get_optimal_play returns STAND exactly
when the true count is at least 2, HIT when it is below 2. -/
theorem C3_count_deviations (cards : List Card) (d : Card) (tc : ℚ)
    (cd cs : Bool) (hhard : (calculate_hand_value cards).2 = false)
    (ht : (calculate_hand_value cards).1 = 16 ∨
      (calculate_hand_value cards).1 = 15)
    (hd : dealer_value d = 10) :
    HARD_STRATEGY 16 10 = some PlayAction.HIT ∧
    HARD_STRATEGY 15 10 = some PlayAction.HIT ∧
    (2 ≤ tc → (get_optimal_play cards d tc cd cs).1 = PlayAction.STAND) ∧
    (tc < 2 → (get_optimal_play cards d tc cd cs).1 = PlayAction.HIT) := by
  have hne : cards ≠ [] := ne_nil_of_total_pos cards (by omega)
  have h : HARD_STRATEGY (calculate_hand_value cards).1 (dealer_value d) =
      some PlayAction.HIT := by
    rcases ht with h16 | h15
    · rw [h16, hd]; decide
    · rw [h15, hd]; decide
  refine ⟨by decide, by decide, ?_, ?_⟩
  · intro htc
    rw [gop_of_hard cards d tc cd cs PlayAction.HIT hne h, adjustDouble_hit]
    unfold applyDeviations
    rw [if_pos htc]
    rcases ht with h16 | h15
    · rw [if_pos ⟨h16, hd⟩]
    · rw [if_neg (by rw [h15, hd]; omega), if_pos ⟨h15, hd⟩]
  · intro htc
    rw [gop_of_hard cards d tc cd cs PlayAction.HIT hne h, adjustDouble_hit,
      applyDeviations_of_lt _ _ _ _ htc]

/-- C3 witness: hard 16 vs 10 is STAND at true count 2 and HIT at true
count 0. -/
theorem C3_witness :
    (get_optimal_play [Card.ten, Card.six] Card.ten 2 true true).1 =
      PlayAction.STAND ∧
    (get_optimal_play [Card.ten, Card.six] Card.ten 0 true true).1 =
      PlayAction.HIT :=
  ⟨(C3_count_deviations [Card.ten, Card.six] Card.ten 2 true true (by decide)
      (by decide) (by decide)).2.2.1 (by decide),
   (C3_count_deviations [Card.ten, Card.six] Card.ten 0 true true (by decide)
      (by decide) (by decide)).2.2.2 (by decide)⟩

/-- C2: for every hard hand and dealer up-card, below true count 2 the
recommendation follows the hard bands: totals 5 to 11 hit, 12 stands exactly
against dealer 4 to 6, 13 to 16 stand exactly against dealer 2 to 6, and
17 to 21 stand. -/
theorem C2_hard_bands (cards : List Card) (d : Card) (tc : ℚ) (cd cs : Bool)
    (hhard : (calculate_hand_value cards).2 = false) (htc : tc < 2) :
    (5 ≤ (calculate_hand_value cards).1 ∧ (calculate_hand_value cards).1 ≤ 11 →
      (get_optimal_play cards d tc cd cs).1 = PlayAction.HIT) ∧
    ((calculate_hand_value cards).1 = 12 →
      (get_optimal_play cards d tc cd cs).1 =
        (if 4 ≤ dealer_value d ∧ dealer_value d ≤ 6 then PlayAction.STAND
         else PlayAction.HIT)) ∧
    (13 ≤ (calculate_hand_value cards).1 ∧ (calculate_hand_value cards).1 ≤ 16 →
      (get_optimal_play cards d tc cd cs).1 =
        (if 2 ≤ dealer_value d ∧ dealer_value d ≤ 6 then PlayAction.STAND
         else PlayAction.HIT)) ∧
    (17 ≤ (calculate_hand_value cards).1 ∧ (calculate_hand_value cards).1 ≤ 21 →
      (get_optimal_play cards d tc cd cs).1 = PlayAction.STAND) := by
  obtain ⟨hdl, hdu⟩ := dealer_value_bounds d
  refine ⟨?_, ?_, ?_, ?_⟩
  · intro hb
    have hne : cards ≠ [] := ne_nil_of_total_pos cards (by omega)
    rw [gop_of_hard cards d tc cd cs PlayAction.HIT hne
        (HARD_band_5_11 _ _ hb ⟨hdl, hdu⟩),
      adjustDouble_hit, applyDeviations_of_lt _ _ _ _ htc]
  · intro hb
    have hne : cards ≠ [] := ne_nil_of_total_pos cards (by omega)
    by_cases hj : 4 ≤ dealer_value d ∧ dealer_value d ≤ 6
    · rw [gop_of_hard cards d tc cd cs PlayAction.STAND hne
          (by rw [hb, HARD_band_12 _ ⟨hdl, hdu⟩, if_pos hj]),
        adjustDouble_stand, applyDeviations_of_lt _ _ _ _ htc, if_pos hj]
    · rw [gop_of_hard cards d tc cd cs PlayAction.HIT hne
          (by rw [hb, HARD_band_12 _ ⟨hdl, hdu⟩, if_neg hj]),
        adjustDouble_hit, applyDeviations_of_lt _ _ _ _ htc, if_neg hj]
  · intro hb
    have hne : cards ≠ [] := ne_nil_of_total_pos cards (by omega)
    by_cases hj : 2 ≤ dealer_value d ∧ dealer_value d ≤ 6
    · rw [gop_of_hard cards d tc cd cs PlayAction.STAND hne
          (by rw [HARD_band_13_16 _ _ hb ⟨hdl, hdu⟩, if_pos hj]),
        adjustDouble_stand, applyDeviations_of_lt _ _ _ _ htc, if_pos hj]
    · rw [gop_of_hard cards d tc cd cs PlayAction.HIT hne
          (by rw [HARD_band_13_16 _ _ hb ⟨hdl, hdu⟩, if_neg hj]),
        adjustDouble_hit, applyDeviations_of_lt _ _ _ _ htc, if_neg hj]
  · intro hb
    have hne : cards ≠ [] := ne_nil_of_total_pos cards (by omega)
    rw [gop_of_hard cards d tc cd cs PlayAction.STAND hne
        (HARD_band_17_21 _ _ hb ⟨hdl, hdu⟩),
      adjustDouble_stand, applyDeviations_of_lt _ _ _ _ htc]

/-- C2 witness: hard 16 vs dealer 9 at true count 0 hits. -/
theorem C2_witness :
    (get_optimal_play [Card.ten, Card.six] Card.nine 0 true true).1 =
      PlayAction.HIT := by
  have h := (C2_hard_bands [Card.ten, Card.six] Card.nine 0 true true
    (by decide) (by decide)).2.2.1 (by decide)
  simpa using h

/-- An empty hand on either side is Pending. -/
theorem dw_pending (p d : List Card) (h : p = [] ∨ d = []) :
    determine_winner p d = GameResult.PENDING := by
  unfold determine_winner
  rw [if_pos h]

/-- A busted player loses regardless of the dealer hand. -/
theorem dw_player_bust (p d : List Card) (hp : p ≠ []) (hd : d ≠ [])
    (h : 21 < (calculate_hand_value p).1) :
    determine_winner p d = GameResult.LOSE := by
  unfold determine_winner
  rw [if_neg (by tauto), if_pos h]

/-- A busted dealer loses to a non-busted player. -/
theorem dw_dealer_bust (p d : List Card) (hp : p ≠ []) (hd : d ≠ [])
    (h1 : (calculate_hand_value p).1 ≤ 21)
    (h2 : 21 < (calculate_hand_value d).1) :
    determine_winner p d = GameResult.WIN := by
  unfold determine_winner
  rw [if_neg (by tauto), if_neg (by omega), if_pos h2]

/-- Two naturals push. -/
theorem dw_both_natural (p d : List Card) (hp : p ≠ []) (hd : d ≠ [])
    (hpn : p.length = 2 ∧ (calculate_hand_value p).1 = 21)
    (hdn : d.length = 2 ∧ (calculate_hand_value d).1 = 21) :
    determine_winner p d = GameResult.PUSH := by
  obtain ⟨hpl, hpt⟩ := hpn
  obtain ⟨hdl, hdt⟩ := hdn
  unfold determine_winner
  rw [if_neg (by tauto), if_neg (by omega), if_neg (by omega),
    if_pos ⟨⟨hpl, hpt⟩, hdl, hdt⟩]

/-- A lone player natural wins. -/
theorem dw_player_natural (p d : List Card) (hp : p ≠ []) (hd : d ≠ [])
    (h2 : (calculate_hand_value d).1 ≤ 21)
    (hpn : p.length = 2 ∧ (calculate_hand_value p).1 = 21)
    (hdn : ¬(d.length = 2 ∧ (calculate_hand_value d).1 = 21)) :
    determine_winner p d = GameResult.WIN := by
  have hpt := hpn.2
  unfold determine_winner
  rw [if_neg (by tauto), if_neg (by omega), if_neg (by omega),
    if_neg (by tauto), if_pos ⟨hpn, hdn⟩]

/-- A lone dealer natural wins over the player. -/
theorem dw_dealer_natural (p d : List Card) (hp : p ≠ []) (hd : d ≠ [])
    (h1 : (calculate_hand_value p).1 ≤ 21)
    (hdn : d.length = 2 ∧ (calculate_hand_value d).1 = 21)
    (hpn : ¬(p.length = 2 ∧ (calculate_hand_value p).1 = 21)) :
    determine_winner p d = GameResult.LOSE := by
  have hdt := hdn.2
  unfold determine_winner
  rw [if_neg (by tauto), if_neg (by omega), if_neg (by omega),
    if_neg (by tauto), if_neg (by tauto), if_pos ⟨hdn, hpn⟩]

/-- With no bust and no natural, the higher total wins and ties push. -/
theorem dw_compare (p d : List Card) (hp : p ≠ []) (hd : d ≠ [])
    (h1 : (calculate_hand_value p).1 ≤ 21)
    (h2 : (calculate_hand_value d).1 ≤ 21)
    (hpn : ¬(p.length = 2 ∧ (calculate_hand_value p).1 = 21))
    (hdn : ¬(d.length = 2 ∧ (calculate_hand_value d).1 = 21)) :
    determine_winner p d =
      (if (calculate_hand_value d).1 < (calculate_hand_value p).1 then
        GameResult.WIN
      else if (calculate_hand_value p).1 < (calculate_hand_value d).1 then
        GameResult.LOSE
      else GameResult.PUSH) := by
  unfold determine_winner
  rw [if_neg (by tauto), if_neg (by omega), if_neg (by omega),
    if_neg (by tauto), if_neg (by tauto), if_neg (by tauto)]

/-- C5: determine_winner applies its rules in order: empty hand gives Pending,
a busted player loses regardless of the dealer, then a busted dealer loses,
then naturals are compared (both push, a lone one wins), and finally the
higher total wins with ties pushing. -/
theorem C5_resolve_rules (p d : List Card) :
    (p = [] ∨ d = [] → determine_winner p d = GameResult.PENDING) ∧
    (p ≠ [] → d ≠ [] → 21 < (calculate_hand_value p).1 →
      determine_winner p d = GameResult.LOSE) ∧
    (p ≠ [] → d ≠ [] → (calculate_hand_value p).1 ≤ 21 →
      21 < (calculate_hand_value d).1 →
      determine_winner p d = GameResult.WIN) ∧
    (p ≠ [] → d ≠ [] →
      p.length = 2 ∧ (calculate_hand_value p).1 = 21 →
      d.length = 2 ∧ (calculate_hand_value d).1 = 21 →
      determine_winner p d = GameResult.PUSH) ∧
    (p ≠ [] → d ≠ [] → (calculate_hand_value d).1 ≤ 21 →
      p.length = 2 ∧ (calculate_hand_value p).1 = 21 →
      ¬(d.length = 2 ∧ (calculate_hand_value d).1 = 21) →
      determine_winner p d = GameResult.WIN) ∧
    (p ≠ [] → d ≠ [] → (calculate_hand_value p).1 ≤ 21 →
      d.length = 2 ∧ (calculate_hand_value d).1 = 21 →
      ¬(p.length = 2 ∧ (calculate_hand_value p).1 = 21) →
      determine_winner p d = GameResult.LOSE) ∧
    (p ≠ [] → d ≠ [] → (calculate_hand_value p).1 ≤ 21 →
      (calculate_hand_value d).1 ≤ 21 →
      ¬(p.length = 2 ∧ (calculate_hand_value p).1 = 21) →
      ¬(d.length = 2 ∧ (calculate_hand_value d).1 = 21) →
      determine_winner p d =
        (if (calculate_hand_value d).1 < (calculate_hand_value p).1 then
          GameResult.WIN
        else if (calculate_hand_value p).1 < (calculate_hand_value d).1 then
          GameResult.LOSE
        else GameResult.PUSH)) :=
  ⟨dw_pending p d,
   dw_player_bust p d,
   dw_dealer_bust p d,
   dw_both_natural p d,
   dw_player_natural p d,
   dw_dealer_natural p d,
   dw_compare p d⟩

/-- C5 witness: a player natural beats a dealer two-card 19. -/
theorem C5_witness :
    determine_winner [Card.ten, Card.A] [Card.ten, Card.nine] =
      GameResult.WIN :=
  (C5_resolve_rules [Card.ten, Card.A] [Card.ten, Card.nine]).2.2.2.2.1
    (by decide) (by decide) (by decide) (by decide) (by decide)

/-- C6 counterexample: when both hands bust, both orientations of
determine_winner return LOSE, a non-Pending non-Push case in which
Win-iff-Lose antisymmetry fails. -/
theorem C6_counterexample :
    determine_winner [Card.ten, Card.ten, Card.five]
      [Card.ten, Card.ten, Card.five] = GameResult.LOSE ∧
    determine_winner [Card.ten, Card.ten, Card.five]
      [Card.ten, Card.ten, Card.five] ≠ GameResult.PENDING ∧
    determine_winner [Card.ten, Card.ten, Card.five]
      [Card.ten, Card.ten, Card.five] ≠ GameResult.PUSH ∧
    ¬(determine_winner [Card.ten, Card.ten, Card.five]
        [Card.ten, Card.ten, Card.five] = GameResult.WIN ↔
      determine_winner [Card.ten, Card.ten, Card.five]
        [Card.ten, Card.ten, Card.five] = GameResult.LOSE) := by
  decide

/-- C6 amended: the Win-iff-Lose antisymmetry of determine_winner holds in
every non-Pending non-Push case in which the two hands do not both bust. -/
theorem C6_antisymmetry_amended (A B : List Card)
    (h1 : determine_winner A B ≠ GameResult.PENDING)
    (h2 : determine_winner A B ≠ GameResult.PUSH)
    (h3 : determine_winner B A ≠ GameResult.PENDING)
    (h4 : determine_winner B A ≠ GameResult.PUSH)
    (h5 : ¬(21 < (calculate_hand_value A).1 ∧
        21 < (calculate_hand_value B).1)) :
    determine_winner A B = GameResult.WIN ↔
      determine_winner B A = GameResult.LOSE := by
  have hA : A ≠ [] := by
    rintro rfl
    exact h1 (dw_pending [] B (Or.inl rfl))
  have hB : B ≠ [] := by
    rintro rfl
    exact h1 (dw_pending A [] (Or.inr rfl))
  rcases lt_or_le 21 (calculate_hand_value A).1 with hbA | hbA
  · have hbB : (calculate_hand_value B).1 ≤ 21 := by
      by_contra hc
      exact h5 ⟨hbA, by omega⟩
    rw [dw_player_bust A B hA hB hbA, dw_dealer_bust B A hB hA hbB hbA]
    simp
  · rcases lt_or_le 21 (calculate_hand_value B).1 with hbB | hbB
    · rw [dw_dealer_bust A B hA hB hbA hbB, dw_player_bust B A hB hA hbB]
      simp
    · by_cases pbj : A.length = 2 ∧ (calculate_hand_value A).1 = 21 <;>
        by_cases dbj : B.length = 2 ∧ (calculate_hand_value B).1 = 21
      · exact absurd (dw_both_natural A B hA hB pbj dbj) h2
      · rw [dw_player_natural A B hA hB hbB pbj dbj,
          dw_dealer_natural B A hB hA hbB pbj dbj]
        simp
      · rw [dw_dealer_natural A B hA hB hbA dbj pbj,
          dw_player_natural B A hB hA hbA dbj pbj]
        simp
      · rcases lt_trichotomy (calculate_hand_value A).1
          (calculate_hand_value B).1 with hlt | heq | hgt
        · rw [dw_compare A B hA hB hbA hbB pbj dbj,
            dw_compare B A hB hA hbB hbA dbj pbj,
            if_neg (by omega), if_pos hlt, if_pos hlt]
          simp
        · exact absurd (by
            rw [dw_compare A B hA hB hbA hbB pbj dbj,
              if_neg (by omega), if_neg (by omega)]) h2
        · rw [dw_compare A B hA hB hbA hbB pbj dbj,
            dw_compare B A hB hA hbB hbA dbj pbj,
            if_pos hgt, if_neg (by omega), if_pos hgt]
          simp

/-- C6 witness: a two-card 19 against a two-card 17 in both orientations. -/
theorem C6_witness :
    determine_winner [Card.ten, Card.nine] [Card.ten, Card.seven] =
      GameResult.WIN ↔
    determine_winner [Card.ten, Card.seven] [Card.ten, Card.nine] =
      GameResult.LOSE :=
  C6_antisymmetry_amended [Card.ten, Card.nine] [Card.ten, Card.seven]
    (by decide) (by decide) (by decide) (by decide) (by decide)

/-- The total of a hand with every ace valued 1 (the minimum achievable
total). -/
def minTotal : List Card → ℕ
  | [] => 0
  | c :: cs => (if c = Card.A then 1 else get_card_value c) + minTotal cs

/-- The totals achievable from a hand by valuing each ace as 1 or 11 and
every other card at face value. -/
inductive achievableValue : List Card → ℕ → Prop where
  | nil : achievableValue [] 0
  | aceLow (cs : List Card) (v : ℕ) :
      achievableValue cs v → achievableValue (Card.A :: cs) (v + 1)
  | aceHigh (cs : List Card) (v : ℕ) :
      achievableValue cs v → achievableValue (Card.A :: cs) (v + 11)
  | face (c : Card) (cs : List Card) (v : ℕ) : c ≠ Card.A →
      achievableValue cs v → achievableValue (c :: cs) (v + get_card_value c)

/-- The number of aces the reduction loop leaves counted as 11: none when
even the all-ones total busts, otherwise as many as fit under 21. -/
def softAces (m a : ℕ) : ℕ :=
  if 21 < m then 0 else min a ((21 - m) / 10)

/-- The all-aces-as-11 starting total decomposes as the minimum total plus
ten per ace. -/
theorem total0_eq (cards : List Card) :
    (cards.map get_card_value).sum =
      minTotal cards + 10 * acesCount cards := by
  induction cards with
  | nil => rfl
  | cons c cs ih =>
    simp only [List.map_cons, List.sum_cons, minTotal, acesCount, ih]
    by_cases h : c = Card.A
    · subst h
      simp [get_card_value]
      omega
    · simp [h]
      omega

/-- softAces never exceeds the ace count. -/
theorem softAces_le (m a : ℕ) : softAces m a ≤ a := by
  unfold softAces
  split_ifs <;> omega

/-- Characterization of the reduction loop on its reachable inputs: starting
from the minimum total plus ten per ace, it lands on the minimum total plus
ten per remaining soft ace. -/
theorem red_main (m : ℕ) :
    ∀ a, reduceAces (m + 10 * a) a = (m + 10 * softAces m a, softAces m a) := by
  intro a
  induction a with
  | zero =>
    have h0 : softAces m 0 = 0 := by
      unfold softAces
      split_ifs <;> simp
    simp [reduceAces, h0]
  | succ a ih =>
    by_cases h : 21 < m + 10 * (a + 1)
    · have e : m + 10 * (a + 1) - 10 = m + 10 * a := by omega
      have hsoft : softAces m (a + 1) = softAces m a := by
        unfold softAces
        split_ifs <;> omega
      simp only [reduceAces, if_pos h, e, ih, hsoft]
    · have hsoft : softAces m (a + 1) = a + 1 := by
        unfold softAces
        rw [if_neg (by omega)]
        omega
      simp only [reduceAces, if_neg h, hsoft]

/-- The first component of calculate_hand_value in closed form. -/
theorem chv_fst (cards : List Card) :
    (calculate_hand_value cards).1 =
      minTotal cards + 10 * softAces (minTotal cards) (acesCount cards) := by
  unfold calculate_hand_value
  rw [total0_eq, red_main]

/-- The softness flag of calculate_hand_value in closed form. -/
theorem chv_snd (cards : List Card) :
    (calculate_hand_value cards).2 =
      decide (0 < softAces (minTotal cards) (acesCount cards) ∧
        minTotal cards + 10 * softAces (minTotal cards) (acesCount cards) ≤ 21) := by
  unfold calculate_hand_value
  rw [total0_eq, red_main]

/-- Every choice of ace values below the ace count is achievable. -/
theorem achievable_of (cards : List Card) :
    ∀ k, k ≤ acesCount cards →
      achievableValue cards (minTotal cards + 10 * k) := by
  induction cards with
  | nil =>
    intro k hk
    have hz : k = 0 := by simpa [acesCount] using hk
    subst hz
    simpa [minTotal] using achievableValue.nil
  | cons c cs ih =>
    intro k hk
    by_cases hc : c = Card.A
    · subst hc
      have hA : acesCount (Card.A :: cs) = 1 + acesCount cs := by
        simp [acesCount]
      rcases Nat.lt_or_ge k (acesCount cs + 1) with hlt | hge
      · have e : minTotal (Card.A :: cs) + 10 * k =
            (minTotal cs + 10 * k) + 1 := by
          simp [minTotal]
          omega
        rw [e]
        exact achievableValue.aceLow cs _ (ih k (by omega))
      · have hke : k = acesCount cs + 1 := by omega
        have e : minTotal (Card.A :: cs) + 10 * k =
            (minTotal cs + 10 * (k - 1)) + 11 := by
          simp [minTotal]
          omega
        rw [e]
        exact achievableValue.aceHigh cs _ (ih (k - 1) (by omega))
    · have hA : acesCount (c :: cs) = acesCount cs := by
        simp [acesCount, hc]
      have e : minTotal (c :: cs) + 10 * k =
          (minTotal cs + 10 * k) + get_card_value c := by
        simp [minTotal, hc]
        omega
      rw [e]
      exact achievableValue.face c cs _ hc (ih k (by omega))

/-- The achievable totals are exactly the minimum total plus ten per ace
counted as 11, for any number of such aces up to the ace count. -/
theorem achievable_iff (cards : List Card) (v : ℕ) :
    achievableValue cards v ↔
      ∃ k, k ≤ acesCount cards ∧ v = minTotal cards + 10 * k := by
  constructor
  · intro h
    induction h with
    | nil => exact ⟨0, by simp [acesCount, minTotal]⟩
    | aceLow cs v hv ih =>
      obtain ⟨k, hk, rfl⟩ := ih
      refine ⟨k, ?_, ?_⟩
      · simp [acesCount]
        omega
      · simp [minTotal]
        omega
    | aceHigh cs v hv ih =>
      obtain ⟨k, hk, rfl⟩ := ih
      refine ⟨k + 1, ?_, ?_⟩
      · simp [acesCount]
        omega
      · simp [minTotal]
        omega
    | face c cs v hc hv ih =>
      obtain ⟨k, hk, rfl⟩ := ih
      refine ⟨k, ?_, ?_⟩
      · simp [acesCount, hc]
        omega
      · simp [minTotal, hc]
        omega
  · rintro ⟨k, hk, rfl⟩
    exact achievable_of cards k hk

/-- C4: calculate_hand_value returns the greatest total at most 21 that is
achievable by valuing each ace as 1 or 11 (or the minimum achievable total
when even that busts); the soft flag is set exactly when the returned total
is at most 21 and counts at least one ace as 11; the empty hand gives
(0, false) and an aceless hand gives the plain face-value sum, not soft. -/
theorem C4_hand_evaluation (cards : List Card) :
    calculate_hand_value [] = (0, false) ∧
    (acesCount cards = 0 →
      calculate_hand_value cards = ((cards.map get_card_value).sum, false)) ∧
    (minTotal cards ≤ 21 →
      achievableValue cards (calculate_hand_value cards).1 ∧
      (calculate_hand_value cards).1 ≤ 21 ∧
      (∀ v, achievableValue cards v → v ≤ 21 →
        v ≤ (calculate_hand_value cards).1)) ∧
    (21 < minTotal cards →
      (calculate_hand_value cards).1 = minTotal cards ∧
      (∀ v, achievableValue cards v → (calculate_hand_value cards).1 ≤ v)) ∧
    ((calculate_hand_value cards).2 = true ↔
      (calculate_hand_value cards).1 ≤ 21 ∧
      ∃ k, 1 ≤ k ∧ k ≤ acesCount cards ∧
        (calculate_hand_value cards).1 = minTotal cards + 10 * k) := by
  refine ⟨rfl, ?_, ?_, ?_, ?_⟩
  · intro hA
    have h0 : softAces (minTotal cards) (acesCount cards) = 0 := by
      rw [hA]
      unfold softAces
      split_ifs <;> simp
    have e1 : (calculate_hand_value cards).1 = (cards.map get_card_value).sum := by
      rw [chv_fst, h0, total0_eq, hA]
    have e2 : (calculate_hand_value cards).2 = false := by
      rw [chv_snd, h0]
      simp
    exact Prod.ext e1 e2
  · intro hm
    refine ⟨?_, ?_, ?_⟩
    · rw [chv_fst]
      exact achievable_of cards _ (softAces_le _ _)
    · rw [chv_fst]
      unfold softAces
      split_ifs <;> omega
    · intro v hv hv21
      rw [achievable_iff] at hv
      obtain ⟨k, hk, rfl⟩ := hv
      rw [chv_fst]
      unfold softAces
      rw [if_neg (by omega)]
      omega
  · intro hm
    have hK : softAces (minTotal cards) (acesCount cards) = 0 := by
      unfold softAces
      rw [if_pos hm]
    refine ⟨?_, ?_⟩
    · rw [chv_fst, hK]
      omega
    · intro v hv
      rw [achievable_iff] at hv
      obtain ⟨k, hk, rfl⟩ := hv
      rw [chv_fst, hK]
      omega
  · rw [chv_fst, chv_snd, decide_eq_true_eq]
    constructor
    · rintro ⟨h1, h2⟩
      exact ⟨h2, _, h1, softAces_le _ _, rfl⟩
    · rintro ⟨h2, k, hk1, hk2, he⟩
      refine ⟨?_, h2⟩
      omega

/-- C4 witness: the hand A,A evaluates below 21 with one ace high. -/
theorem C4_witness :
    achievableValue [Card.A, Card.A] (calculate_hand_value [Card.A, Card.A]).1 ∧
    (calculate_hand_value [Card.A, Card.A]).1 ≤ 21 ∧
    (∀ v, achievableValue [Card.A, Card.A] v → v ≤ 21 →
      v ≤ (calculate_hand_value [Card.A, Card.A]).1) :=
  (C4_hand_evaluation [Card.A, Card.A]).2.2.1 (by decide)

/-- Cards tagged +1 by Hi-Lo: ranks 2 to 6. -/
def lowCard (c : Card) : Bool :=
  decide (2 ≤ get_card_value c ∧ get_card_value c ≤ 6)

/-- Cards tagged -1 by Hi-Lo: tens, faces and aces. -/
def highCard (c : Card) : Bool := decide (10 ≤ get_card_value c)

/-- Per card, the Hi-Lo tag is plus one on 2 to 6, minus one on ten-valued
cards and aces, zero on 7 to 9. -/
theorem hiLo_split (c : Card) :
    HI_LO_VALUES c =
      (if lowCard c then 1 else 0) - (if highCard c then 1 else 0) := by
  cases c <;> rfl

/-- The Hi-Lo running sum counts low cards minus high cards. -/
theorem running_split (cards : List Card) :
    (cards.map HI_LO_VALUES).sum =
      (cards.countP lowCard : ℤ) - (cards.countP highCard : ℤ) := by
  induction cards with
  | nil => simp
  | cons c cs ih =>
    simp only [List.map_cons, List.sum_cons, List.countP_cons, ih, hiLo_split c]
    by_cases h1 : lowCard c <;> by_cases h2 : highCard c <;>
      simp [h1, h2] <;> push_cast <;> ring

/-- First component of calculate_counts: the running count. -/
theorem cc_running (cards : List Card) (n : ℕ) :
    (calculate_counts cards n).1 = (cards.map HI_LO_VALUES).sum := rfl

/-- Second component of calculate_counts: the rounded true count, computed
from the unrounded decks-remaining value. -/
theorem cc_true (cards : List Card) (n : ℕ) :
    (calculate_counts cards n).2.1 =
      round2 (((cards.map HI_LO_VALUES).sum : ℚ) /
        max (1 / 2) ((n : ℚ) - (cards.length : ℚ) / 52)) := rfl

/-- Third component of calculate_counts: the decks-remaining value, rounded
to two decimals. -/
theorem cc_decks (cards : List Card) (n : ℕ) :
    (calculate_counts cards n).2.2 =
      round2 (max (1 / 2) ((n : ℚ) - (cards.length : ℚ) / 52)) := rfl

/-- C7 counterexample: after observing a single 7 from a one-deck shoe, the
returned decks_remaining is 0.98, not the claimed exact 51/52. -/
theorem C7_counterexample :
    (calculate_counts [Card.seven] 1).2.2 ≠
      max (1 / 2) ((1 : ℚ) - 1 / 52) := by
  rw [cc_decks]
  have e1 : max (1 / 2 : ℚ)
      (((1 : ℕ) : ℚ) - (([Card.seven] : List Card).length : ℚ) / 52) =
      51 / 52 := by
    norm_num
  have e2 : max (1 / 2 : ℚ) ((1 : ℚ) - 1 / 52) = 51 / 52 := by
    norm_num
  rw [e1, e2, round2_eq_of (51 / 52) 98 (by norm_num) (by norm_num)]
  norm_num

/-- C7 amended: calculate_counts returns the Hi-Lo running count (low cards
minus high cards), the true count computed as the running count divided by
the unrounded floored decks-remaining value and then rounded to two
decimals, and the decks-remaining value rounded to two decimals; on the
empty sequence with at least one deck it returns (0, 0, decks_in_shoe). -/
theorem C7_counts_amended (cards : List Card) (n : ℕ) :
    (calculate_counts cards n).1 =
      (cards.countP lowCard : ℤ) - (cards.countP highCard : ℤ) ∧
    (calculate_counts cards n).2.1 =
      round2 ((((calculate_counts cards n).1 : ℤ) : ℚ) /
        max (1 / 2) ((n : ℚ) - (cards.length : ℚ) / 52)) ∧
    (calculate_counts cards n).2.2 =
      round2 (max (1 / 2) ((n : ℚ) - (cards.length : ℚ) / 52)) ∧
    (1 ≤ n → calculate_counts [] n = (0, 0, (n : ℚ))) := by
  refine ⟨?_, ?_, ?_, ?_⟩
  · rw [cc_running, running_split]
  · rw [cc_true, cc_running]
  · rw [cc_decks]
  · intro hn
    have hmax : max (1 / 2 : ℚ)
        ((n : ℚ) - ((([] : List Card).length : ℕ) : ℚ) / 52) = (n : ℚ) := by
      have h1 : (1 : ℚ) ≤ (n : ℚ) := by exact_mod_cast hn
      simp only [List.length_nil, Nat.cast_zero, zero_div, sub_zero]
      exact max_eq_right (by linarith)
    have e1 : (calculate_counts [] n).1 = 0 := rfl
    have e2 : (calculate_counts [] n).2.1 = 0 := by
      rw [cc_true]
      simp only [List.map_nil, List.sum_nil, Int.cast_zero, zero_div]
      have h0 := round2_natCast 0
      simpa using h0
    have e3 : (calculate_counts [] n).2.2 = (n : ℚ) := by
      rw [cc_decks, hmax, round2_natCast]
    exact Prod.ext e1 (Prod.ext e2 e3)

/-- C7 witness: the empty card sequence with a one-deck shoe. -/
theorem C7_witness : calculate_counts [] 1 = (0, 0, ((1 : ℕ) : ℚ)) :=
  (C7_counts_amended [] 1).2.2.2 (by decide)

/-- C8: the returned decks_remaining is always at least 0.5 and never zero,
the unrounded divisor of the true-count division is nonzero, and a fully
depleted shoe returns exactly 0.5. -/
theorem C8_decks_floor (cards : List Card) (n : ℕ) (hn : 1 ≤ n) :
    1 / 2 ≤ (calculate_counts cards n).2.2 ∧
    (calculate_counts cards n).2.2 ≠ 0 ∧
    max (1 / 2) ((n : ℚ) - (cards.length : ℚ) / 52) ≠ 0 ∧
    (cards.length = 52 * n → (calculate_counts cards n).2.2 = 1 / 2) := by
  have hle : (1 / 2 : ℚ) ≤
      max (1 / 2) ((n : ℚ) - (cards.length : ℚ) / 52) := le_max_left _ _
  refine ⟨?_, ?_, ?_, ?_⟩
  · rw [cc_decks]
    exact half_le_round2 _ hle
  · have h1 := half_le_round2 _ hle
    rw [cc_decks]
    intro h0
    rw [h0] at h1
    norm_num at h1
  · intro h0
    rw [h0] at hle
    norm_num at hle
  · intro hlen
    rw [cc_decks]
    have e : (n : ℚ) - (cards.length : ℚ) / 52 = 0 := by
      rw [hlen]
      push_cast
      ring
    rw [e, max_eq_left (by norm_num), round2_half]

/-- C8 witness: a fully depleted one-deck shoe of 52 sevens. -/
theorem C8_witness :
    1 / 2 ≤ (calculate_counts (List.replicate 52 Card.seven) 1).2.2 ∧
    (calculate_counts (List.replicate 52 Card.seven) 1).2.2 = 1 / 2 := by
  have h := C8_decks_floor (List.replicate 52 Card.seven) 1 (by decide)
  exact ⟨h.1, h.2.2.2 (by decide)⟩

end Blackjack
